import Mathlib

/-!
Shallow embedding of the keypoint re-localization and measurement engine of
`measurment2.py` (class `LiveKeypointDistanceMeasurer`), together with proofs
about the behaviours the specification describes.

Modelling conventions:
* Python floats are modelled as exact rationals (`ℚ`); pixel coordinates that
  the code handles as Python ints are modelled as `ℤ`.
* `int(x)` (truncation toward zero) is `pyInt`; `//` (floor division) is
  `Int.fdiv`.
* Comparisons of Euclidean distances against nonnegative thresholds are
  embedded via squared distances (`sqrt d < t ↔ d < t^2` for `t ≥ 0`), which
  is exact for real arithmetic.
* Results of OpenCV calls whose value depends on raw pixel data
  (`cv2.matchTemplate` + `cv2.minMaxLoc`, `cv2.findHomography`) are passed in
  as explicit oracle arguments; everything the surrounding Python code
  computes from those results is embedded faithfully.
-/

namespace Operator

/-- A 2-D point with exact rational coordinates (a Python `[x, y]` float pair). -/
abbrev Point := ℚ × ℚ

/-- The sentinel `[-1, -1]` used throughout the source for "no position". -/
def sentinel : Point := (-1, -1)

/-- Squared Euclidean distance between two points.  The source computes
`math.sqrt((ax-bx)**2 + (ay-by)**2)`; we keep the square, and translate each
comparison `dist < t` of the source into `distSq < t^2`. -/
def distSq (p q : Point) : ℚ := (p.1 - q.1) ^ 2 + (p.2 - q.2) ^ 2

/-- Python `int(q)`: truncation toward zero. -/
def pyInt (q : ℚ) : ℤ := q.num.tdiv (q.den : ℤ)

theorem distSq_self (p : Point) : distSq p p = 0 := by
  simp [distSq]

theorem distSq_nonneg (p q : Point) : 0 ≤ distSq p q := by
  have h1 : (0:ℚ) ≤ (p.1 - q.1) ^ 2 := sq_nonneg _
  have h2 : (0:ℚ) ≤ (p.2 - q.2) ^ 2 := sq_nonneg _
  unfold distSq
  linarith

/-! ## MeasurementEngine: QC check (`check_qc`, lines 1570-1593)

State touched by `check_qc`: the active side's `target_distances` dictionary
(front or back, selected by `current_side`), the `qc_results` dictionary, and
— via `save_annotation` / `save_back_annotation` — the persisted annotation
file.  We record the persistence call as a boolean flag.  The `"PASS"` /
`"FAIL"` strings stored in `qc_results` are modelled as booleans. -/

/-- `self.qc_tolerance_cm = 100.0`: the process-wide QC tolerance constant. -/
def qc_tolerance_cm : ℚ := 100

/-- Python dictionary lookup, on an association-list model of a dict
(most recent insertion first). -/
def lookupTarget (td : List (ℕ × ℚ)) (p : ℕ) : Option ℚ :=
  (td.find? (fun kv => kv.1 == p)).map Prod.snd

/-- The state read and written by `check_qc` for the active side. -/
structure QCState where
  target_distances : List (ℕ × ℚ)
  qc_results : List (ℕ × Bool)
  annotation_saved : Bool

/-- `check_qc(pair_num, measured_distance)`, lines 1570-1593.  Returns the
updated state and the boolean result.

* no target stored for `pair_num`: store the measured value as the target,
  persist the annotation (`save_annotation` / `save_back_annotation`), and
  auto-pass;
* otherwise pass iff `|measured - target| ≤ qc_tolerance_cm`, recording the
  verdict in `qc_results` and leaving `target_distances` untouched. -/
def check_qc (st : QCState) (pair_num : ℕ) (measured_distance : ℚ) :
    QCState × Bool :=
  match lookupTarget st.target_distances pair_num with
  | none =>
      ({ st with target_distances := (pair_num, measured_distance) :: st.target_distances,
                 annotation_saved := true }, true)
  | some target_distance =>
      if |measured_distance - target_distance| ≤ qc_tolerance_cm then
        ({ st with qc_results := (pair_num, true) :: st.qc_results }, true)
      else
        ({ st with qc_results := (pair_num, false) :: st.qc_results }, false)

/-- C1.  With no target stored for the pair, `check_qc` stores the measured
value as the new target, persists the annotation, and passes; with a target
`t` stored, it passes iff `|measured − t| ≤ qc_tolerance_cm` and leaves the
stored targets unchanged. -/
theorem check_qc_spec (st : QCState) (pair_num : ℕ) (m : ℚ) :
    (lookupTarget st.target_distances pair_num = none →
      (check_qc st pair_num m).2 = true ∧
      lookupTarget (check_qc st pair_num m).1.target_distances pair_num = some m ∧
      (check_qc st pair_num m).1.annotation_saved = true) ∧
    (∀ t, lookupTarget st.target_distances pair_num = some t →
      ((check_qc st pair_num m).2 = true ↔ |m - t| ≤ qc_tolerance_cm) ∧
      (check_qc st pair_num m).1.target_distances = st.target_distances) := by
  constructor
  · intro hnone
    rw [check_qc, hnone]
    refine ⟨rfl, ?_, rfl⟩
    simp [lookupTarget, List.find?]
  · intro t ht
    by_cases h : |m - t| ≤ qc_tolerance_cm
    · simp [check_qc, ht, h]
    · simp [check_qc, ht, h]

/-- Witness for C1 at a concrete state: an empty map, pair 1, measurement 42. -/
theorem check_qc_spec_witness :
    (check_qc ⟨[], [], false⟩ 1 42).2 = true ∧
    lookupTarget (check_qc ⟨[], [], false⟩ 1 42).1.target_distances 1 = some 42 ∧
    (check_qc ⟨[], [], false⟩ 1 42).1.annotation_saved = true :=
  (check_qc_spec ⟨[], [], false⟩ 1 42).1 (by rfl)

/-! ## Annotation persistence (`save_annotation` lines 391-419,
`load_annotation` lines 318-354)

`save_annotation` dumps `{keypoints, target_distances, placement_box, ...}` to
JSON; `load_annotation` reads the three fields back, converting the JSON
object's string keys with `int(k)` and its values with `float(v)`.
JSON serialization of the integer-keyed dictionary turns each key into its
decimal-digit string; we model that string by the key's decimal digit list
(`Nat.digits 10`), and `int(k)` by decimal parsing (`Nat.ofDigits 10`).
Numbers (keypoint coordinates, cm values, box coordinates) round-trip
unchanged through Python's JSON layer and are modelled as identity. -/

/-- The in-memory annotation data handled by `save_annotation` /
`load_annotation`: keypoint list, integer-keyed target-distance map and
placement box. -/
structure AnnotationRecord where
  keypoints : List Point
  target_distances : List (ℕ × ℚ)
  placement_box : List ℚ

/-- The persisted (JSON) form: dictionary keys have become decimal strings,
modelled as decimal digit lists. -/
structure SavedAnnotation where
  keypoints : List Point
  target_distances : List (List ℕ × ℚ)
  placement_box : List ℚ

/-- `save_annotation` (lines 391-419): serialize the record (keys of
`target_distances` become decimal strings). -/
def save_annotation (a : AnnotationRecord) : SavedAnnotation :=
  { keypoints := a.keypoints,
    target_distances := a.target_distances.map (fun kv => (Nat.digits 10 kv.1, kv.2)),
    placement_box := a.placement_box }

/-- `load_annotation` (lines 318-354): read the three fields back and convert
`{int(k): float(v)}` on the target-distance dictionary. -/
def load_annotation (s : SavedAnnotation) : AnnotationRecord :=
  { keypoints := s.keypoints,
    target_distances := s.target_distances.map (fun kv => (Nat.ofDigits 10 kv.1, kv.2)),
    placement_box := s.placement_box }

/-- C9.  Saving an annotation record and loading it back reproduces identical
keypoints, target distances (same integer keys and values) and placement
box. -/
theorem annotation_roundtrip (a : AnnotationRecord) :
    load_annotation ( save_annotation a) = a := by
  cases a with
  | mk kps td box =>
      simp only [ save_annotation, load_annotation, List.map_map]
      refine congrArg (fun t => AnnotationRecord.mk kps t box) ?_
      have h : ∀ kv : ℕ × ℚ,
          ((fun kv : List ℕ × ℚ => (Nat.ofDigits 10 kv.1, kv.2)) ∘
            fun kv : ℕ × ℚ => (Nat.digits 10 kv.1, kv.2)) kv = kv := by
        intro kv
        simp [Nat.ofDigits_digits]
      calc td.map _ = td.map id := List.map_congr_left (fun kv _ => h kv)
        _ = td := List.map_id td

/-! ## LiveStateWriter (`save_live_measurements`, lines 199-226)

Each measurement 5-tuple `(pair_num, real_distance, pixel_distance,
qc_passed, is_fallback)` becomes one JSON record.  Python's `round(x, 2)` is
modelled by rounding to the nearest hundredth (`round2`); the keypoint `name`
string is irrelevant to the record's numeric content and omitted. -/

/-- One element of the `measurements` list passed to
`save_live_measurements` (the 5-tuple format built at lines 3043/3051). -/
structure MeasurementTuple where
  pair_num : ℕ
  real_distance : ℚ
  pixel_distance : ℚ
  qc_passed : Bool
  is_fallback : Bool

/-- One record of the `measurements` array written to
`live_measurements.json`. -/
structure LiveRecord where
  id : ℕ
  actual_cm : ℚ
  pixel_distance : ℚ
  tolerance_plus : ℚ
  tolerance_minus : ℚ
  min_valid : ℚ
  max_valid : ℚ
  qc_passed : Bool
  is_fallback : Bool

/-- Python `round(q, 2)`: round to the nearest hundredth. -/
def round2 (q : ℚ) : ℚ := (round (q * 100) : ℤ) / 100

/-- The record built for one measurement tuple (lines 208-219). -/
def live_record (m : MeasurementTuple) : LiveRecord :=
  { id := m.pair_num,
    actual_cm := round2 m.real_distance,
    pixel_distance := round2 m.pixel_distance,
    tolerance_plus := 1,
    tolerance_minus := 1,
    min_valid := round2 (m.real_distance - 1),
    max_valid := round2 (m.real_distance + 1),
    qc_passed := m.qc_passed,
    is_fallback := m.is_fallback }

/-- `save_live_measurements` (lines 199-226), restricted to the
`measurements` array it writes. -/
def save_live_measurements (ms : List MeasurementTuple) : List LiveRecord :=
  ms.map live_record

/-- Rounding to the nearest hundredth moves a rational by at most 1/200. -/
theorem round2_err (q : ℚ) : |round2 q - q| ≤ 1 / 200 := by
  have h : |q * 100 - round (q * 100)| ≤ 1 / 2 := abs_sub_round (q * 100)
  have h2 : round2 q - q = -((q * 100 - (round (q * 100) : ℤ)) / 100) := by
    unfold round2
    ring
  rw [h2, abs_neg, abs_div]
  rw [abs_of_pos (by norm_num : (0:ℚ) < 100)]
  linarith [abs_nonneg (q * 100 - (round (q * 100) : ℤ))]

/-- C10.  Every record written by `save_live_measurements` reports
`min_valid = round(measured − 1.0, 2)` and `max_valid = round(measured + 1.0,
2)` — a fixed ±1.0 cm band around the record's own measured value, taken from
no stored target and no QC tolerance — so the measured value (raw and
rounded) lies within its own reported bounds, whatever `qc_passed` is. -/
theorem live_measurement_bounds (ms : List MeasurementTuple) (r : LiveRecord)
    (hr : r ∈ save_live_measurements ms) :
    ∃ m ∈ ms, r = live_record m ∧
      r.min_valid = round2 (m.real_distance - 1) ∧
      r.max_valid = round2 (m.real_distance + 1) ∧
      r.qc_passed = m.qc_passed ∧
      r.min_valid ≤ m.real_distance ∧ m.real_distance ≤ r.max_valid ∧
      r.min_valid ≤ r.actual_cm ∧ r.actual_cm ≤ r.max_valid := by
  rcases List.mem_map.1 hr with ⟨m, hm, hrm⟩
  refine ⟨m, hm, hrm.symm, ?_⟩
  subst hrm
  have h1 := abs_le.1 (round2_err (m.real_distance - 1))
  have h2 := abs_le.1 (round2_err (m.real_distance + 1))
  have h3 := abs_le.1 (round2_err m.real_distance)
  refine ⟨rfl, rfl, rfl, ?_, ?_, ?_, ?_⟩ <;>
    (simp only [live_record]) <;> linarith

/-- Witness for C10 on a concrete (failing-QC, fallback) measurement. -/
theorem live_measurement_bounds_witness :
    ∃ m ∈ [MeasurementTuple.mk 1 10 100 false true],
      live_record ⟨1, 10, 100, false, true⟩ = live_record m ∧
      (live_record ⟨1, 10, 100, false, true⟩).min_valid = round2 (m.real_distance - 1) ∧
      (live_record ⟨1, 10, 100, false, true⟩).max_valid = round2 (m.real_distance + 1) ∧
      (live_record ⟨1, 10, 100, false, true⟩).qc_passed = m.qc_passed ∧
      (live_record ⟨1, 10, 100, false, true⟩).min_valid ≤ m.real_distance ∧
      m.real_distance ≤ (live_record ⟨1, 10, 100, false, true⟩).max_valid ∧
      (live_record ⟨1, 10, 100, false, true⟩).min_valid ≤ (live_record ⟨1, 10, 100, false, true⟩).actual_cm ∧
      (live_record ⟨1, 10, 100, false, true⟩).actual_cm ≤ (live_record ⟨1, 10, 100, false, true⟩).max_valid :=
  live_measurement_bounds [⟨1, 10, 100, false, true⟩] (live_record ⟨1, 10, 100, false, true⟩)
    (by simp [ save_live_measurements])

/-! ## Measurement pairing (live loop, lines 2979-3051)

The live measurement loop iterates `for i in range(0, len(kps)-1, 2)` and,
for each `i` with `i+1 < len(kps)`, forms the measurement pair
`(i//2 + 1, kps[i], kps[i+1])`.  `measurement_pair_loop` mirrors the loop's
index progression; `measurement_pairs` is the whole traversal. -/

/-- The pair-forming loop from index `i` upward in steps of 2 (the loop
header `range(0, len-1, 2)` together with the guard `i+1 < len`). -/
def measurement_pair_loop (kps : List Point) (i : ℕ) : List (ℕ × Point × Point) :=
  if h : i + 1 < kps.length then
    (i / 2 + 1, kps.getD i sentinel, kps.getD (i + 1) sentinel) ::
      measurement_pair_loop kps (i + 2)
  else []
termination_by kps.length - i
decreasing_by omega

/-- All measurement pairs formed from a transferred-keypoint list. -/
def measurement_pairs (kps : List Point) : List (ℕ × Point × Point) :=
  measurement_pair_loop kps 0

theorem measurement_pair_loop_length (kps : List Point) :
    ∀ i, (measurement_pair_loop kps i).length = (kps.length - i) / 2 := by
  have H : ∀ m i, kps.length - i ≤ m →
      (measurement_pair_loop kps i).length = (kps.length - i) / 2 := by
    intro m
    induction m with
    | zero =>
        intro i hi
        rw [measurement_pair_loop, dif_neg (by omega)]
        simp only [List.length_nil]
        omega
    | succ m ih =>
        intro i hi
        rw [measurement_pair_loop]
        by_cases h : i + 1 < kps.length
        · rw [dif_pos h]
          simp only [List.length_cons]
          rw [ih (i + 2) (by omega)]
          omega
        · rw [dif_neg h]
          simp only [List.length_nil]
          omega
  intro i
  exact H (kps.length - i) i le_rfl

theorem measurement_pair_loop_getD (kps : List Point) :
    ∀ k i, k < (measurement_pair_loop kps i).length →
      (measurement_pair_loop kps i).getD k (0, sentinel, sentinel) =
        ((i + 2 * k) / 2 + 1, kps.getD (i + 2 * k) sentinel,
          kps.getD (i + 2 * k + 1) sentinel) := by
  intro k
  induction k with
  | zero =>
      intro i hk
      rw [measurement_pair_loop] at hk ⊢
      by_cases h : i + 1 < kps.length
      · rw [dif_pos h] at hk ⊢
        simp
      · rw [dif_neg h] at hk
        simp at hk
  | succ k ih =>
      intro i hk
      rw [measurement_pair_loop] at hk ⊢
      by_cases h : i + 1 < kps.length
      · rw [dif_pos h] at hk ⊢
        simp only [List.length_cons] at hk
        simp only [List.getD_cons_succ]
        rw [ih (i + 2) (by omega)]
        have e1 : i + 2 + 2 * k = i + 2 * (k + 1) := by ring
        rw [e1]
      · rw [dif_neg h] at hk
        simp at hk

/-- C4.  A transferred-keypoint list of length `n` yields exactly `⌊n/2⌋`
measurement pairs; the `k`-th pair has pair index `k+1` and consists of the
keypoints at indices `2k` and `2k+1`; when `n` is odd the final keypoint
(index `n-1`) belongs to no pair. -/
theorem measurement_pairs_spec (kps : List Point) :
    (measurement_pairs kps).length = kps.length / 2 ∧
    (∀ k, k < kps.length / 2 →
      (measurement_pairs kps).getD k (0, sentinel, sentinel) =
        (k + 1, kps.getD (2 * k) sentinel, kps.getD (2 * k + 1) sentinel) ∧
      2 * k + 1 < kps.length) ∧
    (kps.length % 2 = 1 → ∀ k, k < kps.length / 2 →
      2 * k ≠ kps.length - 1 ∧ 2 * k + 1 ≠ kps.length - 1) := by
  have hlen : (measurement_pairs kps).length = kps.length / 2 := by
    rw [measurement_pairs, measurement_pair_loop_length]
    omega
  refine ⟨hlen, ?_, ?_⟩
  · intro k hk
    have hk' : k < (measurement_pairs kps).length := by omega
    have h := measurement_pair_loop_getD kps k 0 hk'
    rw [measurement_pairs]
    rw [h]
    constructor
    · have e1 : 0 + 2 * k = 2 * k := by ring
      rw [e1]
      have e2 : 2 * k / 2 + 1 = k + 1 := by omega
      rw [e2]
    · omega
  · intro hodd k hk
    omega

/-- Witness for C4 on a 3-keypoint list: one pair, made of keypoints 0 and 1. -/
theorem measurement_pairs_spec_witness :
    (0:ℕ) < [((1:ℚ), (2:ℚ)), (3, 4), (5, 6)].length / 2 ∧
    (measurement_pairs [((1:ℚ), (2:ℚ)), (3, 4), (5, 6)]).getD 0 (0, sentinel, sentinel) =
      (0 + 1, [((1:ℚ), (2:ℚ)), (3, 4), (5, 6)].getD (2 * 0) sentinel,
        [((1:ℚ), (2:ℚ)), (3, 4), (5, 6)].getD (2 * 0 + 1) sentinel) :=
  ⟨by norm_num,
    ((measurement_pairs_spec [((1:ℚ), (2:ℚ)), (3, 4), (5, 6)]).2.1 0 (by norm_num)).1⟩

/-! ## GeometricTransferEngine: MLS transfer (`transfer_with_mls`,
lines 762-808)

A match pairs a source point (`ref_kp[m.queryIdx].pt`) with a destination
point (`curr_kp[m.trainIdx].pt`).  `self.alpha = 1.0`, so the weight
`1/distance**(2*alpha)` is `1/distSq`; the near-zero guard
`distance < 1e-6` is `distSq < 1e-12`. -/

/-- One feature match: matched source point in the reference image and
destination point in the live frame. -/
structure FeatureMatch where
  src : Point
  dst : Point

/-- The fixed MLS exponent `self.alpha = 1.0`. -/
def alpha : ℚ := 1

/-- The MLS weight of one match for a reference keypoint (lines 786-791):
`1e6` when the source point is within `1e-6` of the keypoint, else
`1/distance²` (with `alpha = 1`). -/
def mls_weight (ref_point src : Point) : ℚ :=
  if distSq ref_point src < 1 / 10 ^ 12 then 10 ^ 6 else 1 / distSq ref_point src

/-- The MLS-transferred position of one reference keypoint
(lines 775-802): weighted centroid of destinations, sentinel when the total
weight is zero. -/
def mls_point (ms : List FeatureMatch) (ref_point : Point) : Point :=
  let total_weight := (ms.map (fun m => mls_weight ref_point m.src)).sum
  let weighted_x := (ms.map (fun m => mls_weight ref_point m.src * m.dst.1)).sum
  let weighted_y := (ms.map (fun m => mls_weight ref_point m.src * m.dst.2)).sum
  if 0 < total_weight then (weighted_x / total_weight, weighted_y / total_weight)
  else sentinel

/-- `transfer_with_mls` (lines 762-808), restricted to the transferred-point
list it returns (the first component of the Python pair is always `None`):
empty for fewer than 4 matches, else one MLS position per active-side
keypoint. -/
def transfer_with_mls (ms : List FeatureMatch) (kps : List Point) : List Point :=
  if ms.length < 4 then [] else kps.map (mls_point ms)

/-- Counterexample to C6 as stated: with a single match — even one whose
source point coincides with the reference keypoint — `transfer_with_mls`
returns the empty list (the `len(matches) < 4` guard), so no transferred
position equal to the match's destination is produced. -/
theorem transfer_with_mls_single_match_empty :
    transfer_with_mls [⟨(5, 5), (9, 2)⟩] [(5, 5)] = [] := by
  rfl

/-- C6 (amended).  `transfer_with_mls` needs at least 4 matches; called with
`c ≥ 4` copies of a single match whose source point is at zero distance from
a reference keypoint, it transfers that keypoint exactly to the match's
destination point. -/
theorem transfer_with_mls_zero_distance (c : ℕ) (hc : 4 ≤ c) (m : FeatureMatch)
    (kps : List Point) (j : ℕ) (hj : j < kps.length)
    (hsrc : kps.getD j sentinel = m.src) :
    (transfer_with_mls (List.replicate c m) kps).getD j sentinel = m.dst := by
  have hw : mls_weight m.src m.src = 10 ^ 6 := by
    rw [mls_weight, if_pos]
    rw [distSq_self]
    norm_num
  have hc0 : (0:ℚ) < (c : ℚ) * 10 ^ 6 := by
    have : (4:ℚ) ≤ (c : ℚ) := by exact_mod_cast hc
    nlinarith
  rw [transfer_with_mls, if_neg (by simp; omega)]
  rw [List.getD_eq_getElem _ _ (by simpa using hj)]
  rw [List.getElem_map]
  have hkj : kps[j] = m.src := by
    rw [← List.getD_eq_getElem kps sentinel hj, hsrc]
  rw [hkj]
  simp only [mls_point, List.map_replicate, List.sum_replicate, hw, nsmul_eq_mul]
  rw [if_pos hc0]
  have hcpos : (0:ℚ) < (c : ℚ) := by
    have h4 : (4:ℚ) ≤ (c : ℚ) := by exact_mod_cast hc
    linarith
  have hcne : ((c : ℚ)) ≠ 0 := ne_of_gt hcpos
  have hx : (c : ℚ) * (10 ^ 6 * m.dst.1) / ((c : ℚ) * 10 ^ 6) = m.dst.1 := by
    field_simp
    ring
  have hy : (c : ℚ) * (10 ^ 6 * m.dst.2) / ((c : ℚ) * 10 ^ 6) = m.dst.2 := by
    field_simp
    ring
  rw [hx, hy]

/-- Witness for C6 (amended): 4 copies of the match `(5,5) ↦ (9,2)` and the
keypoint `(5,5)` yield the destination `(9,2)`. -/
theorem transfer_with_mls_zero_distance_witness :
    (transfer_with_mls (List.replicate 4 ⟨(5, 5), (9, 2)⟩) [((5:ℚ), (5:ℚ))]).getD 0 sentinel =
      ((9:ℚ), (2:ℚ)) :=
  transfer_with_mls_zero_distance 4 le_rfl ⟨(5, 5), (9, 2)⟩ [(5, 5)] 0 (by norm_num) (by rfl)

/-! ## GeometricTransferEngine: homography transfer
(`transfer_with_homography` lines 721-760, caller lines 1274-1289)

`cv2.findHomography` fits `H` from pixel data; we pass its result in as an
oracle (`none` models a failed fit).  Everything after the fit — the
minimum-match guard, the determinant sanity check `0.1 < |det H| < 10.0` and
the projection of all active-side keypoints — is embedded exactly. -/

/-- A 3×3 planar homography (row-major entries of the matrix returned by
`cv2.findHomography`). -/
structure Homography where
  h11 : ℚ
  h12 : ℚ
  h13 : ℚ
  h21 : ℚ
  h22 : ℚ
  h23 : ℚ
  h31 : ℚ
  h32 : ℚ
  h33 : ℚ

/-- The determinant computed by `np.linalg.det(H)` (cofactor expansion of the
3×3 matrix). -/
def Homography.det (H : Homography) : ℚ :=
  H.h11 * (H.h22 * H.h33 - H.h23 * H.h32) -
    H.h12 * (H.h21 * H.h33 - H.h23 * H.h31) +
    H.h13 * (H.h21 * H.h32 - H.h22 * H.h31)

/-- `cv2.perspectiveTransform` on one point: projective application of `H`. -/
def perspective_transform (H : Homography) (p : Point) : Point :=
  let w := H.h31 * p.1 + H.h32 * p.2 + H.h33
  ((H.h11 * p.1 + H.h12 * p.2 + H.h13) / w, (H.h21 * p.1 + H.h22 * p.2 + H.h23) / w)

/-- `self.min_matches = 15`. -/
def min_matches : ℕ := 15

/-- `transfer_with_homography` (lines 721-760): `(H, transformed_points)` on
acceptance; `(None, [])` when there are fewer than `min_matches` matches,
when the fit failed, or when `|det H|` falls outside `(0.1, 10.0)`. -/
def transfer_with_homography (fitH : Option Homography) (match_count : ℕ)
    (kps : List Point) : Option Homography × List Point :=
  if match_count < min_matches then (none, [])
  else
    match fitH with
    | none => (none, [])
    | some H =>
        if 1 / 10 < |H.det| ∧ |H.det| < 10 then
          (some H, kps.map (perspective_transform H))
        else (none, [])

/-- The per-frame selection in `transfer_keypoints_robust` (lines 1274-1289)
once `matches ≥ 20` routed to the homography branch: a truthy (non-empty)
homography result is used, otherwise the MLS result; below 20 matches MLS is
used directly. -/
def select_feature_points (match_count : ℕ)
    (homography_points mls_points : List Point) : List Point :=
  if 20 ≤ match_count then
    (if homography_points.isEmpty then mls_points else homography_points)
  else mls_points

/-- C3.  A fitted homography with `|det H| ≤ 0.1` or `|det H| ≥ 10.0` is
never applied: `transfer_with_homography` returns an empty transferred-point
list, and the per-frame transfer then falls back to the MLS positions. -/
theorem homography_degenerate_rejected (H : Homography) (match_count : ℕ)
    (kps mls_points : List Point)
    (hdet : |H.det| ≤ 1 / 10 ∨ 10 ≤ |H.det|) :
    (transfer_with_homography (some H) match_count kps).2 = [] ∧
    select_feature_points match_count
      (transfer_with_homography (some H) match_count kps).2 mls_points = mls_points := by
  have hguard : ¬(1 / 10 < |H.det| ∧ |H.det| < 10) := by
    rcases hdet with h | h
    · intro hc
      linarith [hc.1]
    · intro hc
      linarith [hc.2]
  have hempty : (transfer_with_homography (some H) match_count kps).2 = [] := by
    by_cases hm : match_count < min_matches
    · simp [transfer_with_homography, hm]
    · have hguard2 : ¬(10⁻¹ < |H.det| ∧ |H.det| < 10) := by simpa using hguard
      simp [transfer_with_homography, hm, hguard2]
  refine ⟨hempty, ?_⟩
  rw [select_feature_points, hempty]
  by_cases h20 : 20 ≤ match_count
  · rw [if_pos h20, if_pos List.isEmpty_nil]
  · rw [if_neg h20]

/-- Witness for C3 with a concrete degenerate fit (`det = 1/100`) and 25
matches. -/
theorem homography_degenerate_rejected_witness :
    (transfer_with_homography (some ⟨1/100, 0, 0, 0, 1, 0, 0, 0, 1⟩) 25 [(3, 4)]).2 = [] ∧
    select_feature_points 25
      (transfer_with_homography (some ⟨1/100, 0, 0, 0, 1, 0, 0, 0, 1⟩) 25 [(3, 4)]).2
      [((7:ℚ), (8:ℚ))] = [((7:ℚ), (8:ℚ))] := by
  refine homography_degenerate_rejected ⟨1/100, 0, 0, 0, 1, 0, 0, 0, 1⟩ 25 [(3, 4)] [(7, 8)]
    (Or.inl ?_)
  have h : Homography.det ⟨1/100, 0, 0, 0, 1, 0, 0, 0, 1⟩ = 1 / 100 := by
    norm_num [Homography.det]
  rw [h, abs_of_pos] <;> norm_num

/-! ## StabilizationFilter (`stabilize_keypoints` lines 1387-1430,
`check_coordinated_movement` lines 1432-1471)

Only the final cosine-consistency comparison involves square roots; it is
embedded over `ℝ` (`Real.sqrt` is the exact-real counterpart of
`math.sqrt`), with the comparison decided classically.  All guards that the
source expresses through `math.sqrt` against positive constants
(`distance < 17`, `magnitude > 5`, `magnitude > 0`) are embedded as the
equivalent squared comparisons (`distSq < 289`, `magSq > 25`, `magSq > 0`). -/

/-- The per-side tracking state used by `stabilize_keypoints`
(`last_valid_keypoints`, `stabilization_frames`, `keypoint_stabilized`). -/
structure TrackState where
  last_valid_keypoints : List Point
  stabilization_frames : ℕ
  keypoint_stabilized : Bool

/-- The displacement vectors gathered by `check_coordinated_movement`
(lines 1440-1448): for every index of `zip(new_points, last_valid)` other
than `changed` whose new and last x-coordinates are not `-1` and whose
movement magnitude exceeds 5px, the vector `(dx, dy)`. -/
def movement_directions (last_valid new_points : List Point) (changed : ℕ) :
    List Point :=
  (List.range (min new_points.length last_valid.length)).filterMap (fun i =>
    if i ≠ changed ∧ (new_points.getD i sentinel).1 ≠ -1 ∧
        (last_valid.getD i sentinel).1 ≠ -1 ∧
        25 < distSq (new_points.getD i sentinel) (last_valid.getD i sentinel) then
      some ((new_points.getD i sentinel).1 - (last_valid.getD i sentinel).1,
        (new_points.getD i sentinel).2 - (last_valid.getD i sentinel).2)
    else none)

/-- `np.mean` of the x- and y-components of the movement vectors
(lines 1454-1455). -/
def avgDir (dirs : List Point) : Point :=
  ((dirs.map Prod.fst).sum / (dirs.length : ℚ),
    (dirs.map Prod.snd).sum / (dirs.length : ℚ))

/-- One summand of the consistency loop (lines 1460-1466):
`dot/(mag1*mag2)` when both magnitudes are positive (equivalently, both
squared magnitudes are positive), else the loop adds nothing (0). -/
noncomputable def cosineSim (d a : Point) : ℝ :=
  if 0 < d.1 ^ 2 + d.2 ^ 2 ∧ 0 < a.1 ^ 2 + a.2 ^ 2 then
    ((d.1 * a.1 + d.2 * a.2 : ℚ) : ℝ) /
      (Real.sqrt ((d.1 ^ 2 + d.2 ^ 2 : ℚ) : ℝ) * Real.sqrt ((a.1 ^ 2 + a.2 ^ 2 : ℚ) : ℝ))
  else 0

/-- `consistency /= len(movement_directions)` (line 1468). -/
noncomputable def consistency (dirs : List Point) : ℝ :=
  (dirs.map (fun d => cosineSim d (avgDir dirs))).sum / (dirs.length : ℝ)

open Classical in
/-- `check_coordinated_movement(new_points, changed_index)`
(lines 1432-1471): `True` with fewer than 3 remembered points, `True` with
fewer than 2 corroborating movement vectors ("not enough data, assume real
movement"), else `consistency > 0.7`. -/
noncomputable def check_coordinated_movement (last_valid new_points : List Point)
    (changed : ℕ) : Bool :=
  if last_valid.length < 3 then true
  else if (movement_directions last_valid new_points changed).length < 2 then true
  else decide ((7 : ℝ) / 10 < consistency (movement_directions last_valid new_points changed))

/-- The per-keypoint body of the stabilization loop (lines 1396-1417):
sentinel candidates keep the last valid position (not counted as valid);
candidates within 17px are accepted; farther candidates are accepted iff the
coordinated-movement check passes.  The boolean is the point's contribution
to `valid_count`. -/
noncomputable def stabilize_point (last_valid new_points : List Point) (i : ℕ) :
    Bool × Point :=
  if (new_points.getD i sentinel).1 = -1 ∨ (new_points.getD i sentinel).2 = -1 then
    (false, last_valid.getD i sentinel)
  else if distSq (new_points.getD i sentinel) (last_valid.getD i sentinel) < 289 then
    (true, new_points.getD i sentinel)
  else if check_coordinated_movement last_valid new_points i then
    (true, new_points.getD i sentinel)
  else (false, last_valid.getD i sentinel)

/-- All per-keypoint results of one stabilization pass. -/
noncomputable def stabilize_results (last_valid new_points : List Point) :
    List (Bool × Point) :=
  (List.range new_points.length).map (stabilize_point last_valid new_points)

/-- `stabilize_keypoints(new_keypoints)` (lines 1387-1430) as a state
transformer.  An empty or differently-sized memory re-initializes
`last_valid_keypoints` and returns the candidates unchanged; otherwise the
per-point results are taken, `stabilization_frames` is incremented when every
point counted as valid (setting `keypoint_stabilized` once it reaches 2) and
reset to 0 otherwise. -/
noncomputable def stabilize_keypoints (st : TrackState) (new_points : List Point) :
    TrackState × List Point :=
  if st.last_valid_keypoints.isEmpty ∨ st.last_valid_keypoints.length ≠ new_points.length then
    ({ st with last_valid_keypoints := new_points }, new_points)
  else if ((stabilize_results st.last_valid_keypoints new_points).filter Prod.fst).length
      = new_points.length then
    ({ last_valid_keypoints := (stabilize_results st.last_valid_keypoints new_points).map Prod.snd,
       stabilization_frames := st.stabilization_frames + 1,
       keypoint_stabilized :=
         if 2 ≤ st.stabilization_frames + 1 then true else st.keypoint_stabilized },
      (stabilize_results st.last_valid_keypoints new_points).map Prod.snd)
  else
    ({ last_valid_keypoints := (stabilize_results st.last_valid_keypoints new_points).map Prod.snd,
       stabilization_frames := 0,
       keypoint_stabilized := false },
      (stabilize_results st.last_valid_keypoints new_points).map Prod.snd)

theorem stabilize_results_snd (l c : List Point)
    (hall : ∀ i, i < c.length → (stabilize_point l c i).2 = c.getD i sentinel) :
    (stabilize_results l c).map Prod.snd = c := by
  apply List.ext_getElem
  · simp [stabilize_results]
  · intro i h1 h2
    simp only [stabilize_results, List.getElem_map, List.getElem_range]
    rw [hall i h2, List.getD_eq_getElem c sentinel h2]

theorem stabilize_keypoints_points (st : TrackState) (c : List Point)
    (hne : st.last_valid_keypoints ≠ [])
    (hlen : st.last_valid_keypoints.length = c.length)
    (hall : ∀ i, i < c.length → (stabilize_point st.last_valid_keypoints c i).2 = c.getD i sentinel) :
    (stabilize_keypoints st c).2 = c := by
  have hbranch : ¬(st.last_valid_keypoints.isEmpty ∨
      st.last_valid_keypoints.length ≠ c.length) := by
    simp [List.isEmpty_iff, hne, hlen]
  rw [stabilize_keypoints, if_neg hbranch]
  by_cases hv : ((stabilize_results st.last_valid_keypoints c).filter Prod.fst).length = c.length
  · rw [if_pos hv]
    exact stabilize_results_snd _ _ hall
  · rw [if_neg hv]
    exact stabilize_results_snd _ _ hall

theorem stabilize_point_same (l c : List Point) (i : ℕ)
    (h : c.getD i sentinel = l.getD i sentinel) :
    (stabilize_point l c i).2 = c.getD i sentinel := by
  rw [stabilize_point]
  by_cases hs : (c.getD i sentinel).1 = -1 ∨ (c.getD i sentinel).2 = -1
  · rw [if_pos hs, h]
  · rw [if_neg hs, if_pos]
    rw [h, distSq_self]
    norm_num

theorem stabilize_point_same_valid (l c : List Point) (i : ℕ)
    (h : c.getD i sentinel = l.getD i sentinel)
    (hv1 : (c.getD i sentinel).1 ≠ -1) (hv2 : (c.getD i sentinel).2 ≠ -1) :
    stabilize_point l c i = (true, c.getD i sentinel) := by
  rw [stabilize_point, if_neg (by tauto), if_pos]
  rw [h, distSq_self]
  norm_num

theorem stabilize_point_isolated (l c : List Point) (j : ℕ)
    (hv1 : (c.getD j sentinel).1 ≠ -1) (hv2 : (c.getD j sentinel).2 ≠ -1)
    (hothers : ∀ i, i ≠ j → c.getD i sentinel = l.getD i sentinel) :
    (stabilize_point l c j).2 = c.getD j sentinel := by
  rw [stabilize_point, if_neg (by tauto)]
  by_cases hnear : distSq (c.getD j sentinel) (l.getD j sentinel) < 289
  · rw [if_pos hnear]
  · rw [if_neg hnear, if_pos]
    rw [check_coordinated_movement]
    by_cases h3 : l.length < 3
    · rw [if_pos h3]
    · rw [if_neg h3]
      have hdirs : movement_directions l c j = [] := by
        rw [movement_directions, List.filterMap_eq_nil_iff]
        intro i hi
        rw [if_neg]
        intro hcond
        rcases hcond with ⟨hij, -, -, hmag⟩
        rw [hothers i hij, distSq_self] at hmag
        norm_num at hmag
      rw [hdirs]
      norm_num

/-- `(range n).filter (· ≠ j)` has length `n - 1` when `j < n`. -/
theorem length_filter_ne_range (j : ℕ) :
    ∀ n, j < n → ((List.range n).filter (fun i => ! (i == j))).length = n - 1 := by
  intro n
  induction n with
  | zero => omega
  | succ n ih =>
      intro hj
      rw [List.range_succ, List.filter_append, List.length_append]
      by_cases h : j = n
      · have h1 : (List.range n).filter (fun i => ! (i == j)) = List.range n := by
          rw [List.filter_eq_self]
          intro a ha
          have halt : a < n := List.mem_range.1 ha
          simp only [Bool.not_eq_true']
          rw [beq_eq_false_iff_ne]
          omega
        rw [h1]
        have h2 : [n].filter (fun i => ! (i == j)) = [] := by
          subst h
          simp
        rw [h2]
        simp
      · have h2 : [n].filter (fun i => ! (i == j)) = [n] := by
          simp only [List.filter_cons, List.filter_nil]
          rw [if_pos]
          simp only [Bool.not_eq_true']
          rw [beq_eq_false_iff_ne]
          omega
        rw [h2, ih (by omega)]
        simp
        omega

theorem filterMap_ite_shape {β : Type} (f : ℕ → Option β) (j : ℕ) (v : β) :
    ∀ l : List ℕ, (∀ i ∈ l, f i = if i = j then none else some v) →
      l.filterMap f = (l.filter (fun i => ! (i == j))).map (fun _ => v) := by
  intro l
  induction l with
  | nil => intro _; rfl
  | cons a t ih =>
      intro hf
      have ha := hf a (List.mem_cons_self a t)
      have ht := fun i hi => hf i (List.mem_cons_of_mem a hi)
      rw [List.filterMap_cons, List.filter_cons]
      by_cases h : a = j
      · rw [ha, if_pos h, if_neg (by simp [h]), ih ht]
      · rw [ha, if_neg h, if_pos (by simp [h]), List.map_cons, ih ht]

theorem consistency_replicate (k : ℕ) (hk : k ≠ 0) (v : Point)
    (hv : 0 < v.1 ^ 2 + v.2 ^ 2) :
    consistency (List.replicate k v) = 1 := by
  have hkQ : ((k : ℚ)) ≠ 0 := by exact_mod_cast hk
  have hkR : ((k : ℝ)) ≠ 0 := by exact_mod_cast hk
  have havg : avgDir (List.replicate k v) = v := by
    rw [avgDir]
    simp only [List.map_replicate, List.sum_replicate, List.length_replicate, nsmul_eq_mul]
    rw [mul_div_cancel_left₀ _ hkQ, mul_div_cancel_left₀ _ hkQ]
  have hvR : (0:ℝ) < ((v.1 ^ 2 + v.2 ^ 2 : ℚ) : ℝ) := by exact_mod_cast hv
  have hcos : cosineSim v v = 1 := by
    rw [cosineSim, if_pos ⟨hv, hv⟩]
    rw [Real.mul_self_sqrt (le_of_lt hvR)]
    have hnum : ((v.1 * v.1 + v.2 * v.2 : ℚ) : ℝ) = ((v.1 ^ 2 + v.2 ^ 2 : ℚ) : ℝ) := by
      push_cast
      ring
    rw [hnum]
    exact div_self (ne_of_gt hvR)
  rw [consistency, havg]
  simp only [List.map_replicate, hcos, List.sum_replicate, List.length_replicate,
    nsmul_eq_mul, mul_one]
  exact div_self hkR

theorem stabilize_point_coordinated (l c : List Point) (v : Point) (j : ℕ)
    (hlen : l.length = c.length) (hj : j < c.length)
    (hv2500 : v.1 ^ 2 + v.2 ^ 2 = 2500)
    (hmove : ∀ i, i < c.length → c.getD i sentinel =
      ((l.getD i sentinel).1 + v.1, (l.getD i sentinel).2 + v.2))
    (hvalid : ∀ i, i < c.length → (l.getD i sentinel).1 ≠ -1 ∧
      (c.getD i sentinel).1 ≠ -1 ∧ (c.getD i sentinel).2 ≠ -1) :
    (stabilize_point l c j).2 = c.getD j sentinel := by
  have hvj := hvalid j hj
  have hdist : distSq (c.getD j sentinel) (l.getD j sentinel) = v.1 ^ 2 + v.2 ^ 2 := by
    rw [hmove j hj]
    simp only [distSq]
    ring
  rw [stabilize_point, if_neg (by tauto)]
  rw [if_neg (by rw [hdist, hv2500]; norm_num), if_pos]
  rw [check_coordinated_movement]
  by_cases h3 : l.length < 3
  · rw [if_pos h3]
  · rw [if_neg h3]
    have hminn : min c.length l.length = c.length := by omega
    have hdirs : movement_directions l c j =
        ((List.range c.length).filter (fun i => ! (i == j))).map (fun _ => v) := by
      rw [movement_directions, hminn]
      apply filterMap_ite_shape
      intro i hi
      have hilt : i < c.length := List.mem_range.1 hi
      by_cases hij : i = j
      · rw [if_pos hij, if_neg]
        subst hij
        simp
      · rw [if_neg hij, if_pos]
        · rw [hmove i hilt]
          simp only
          rw [add_sub_cancel_left, add_sub_cancel_left, Prod.mk.eta]
        · refine ⟨hij, (hvalid i hilt).2.1, (hvalid i hilt).1, ?_⟩
          have hd : distSq (c.getD i sentinel) (l.getD i sentinel) = v.1 ^ 2 + v.2 ^ 2 := by
            rw [hmove i hilt]
            simp only [distSq]
            ring
          rw [hd, hv2500]
          norm_num
    rw [hdirs]
    have hlenfil :
        (((List.range c.length).filter (fun i => ! (i == j))).map (fun _ => v)).length =
          c.length - 1 := by
      rw [List.length_map, length_filter_ne_range j c.length hj]
    rw [if_neg (by rw [hlenfil]; omega)]
    have hrep : ((List.range c.length).filter (fun i => ! (i == j))).map (fun _ => v) =
        List.replicate (c.length - 1) v := by
      apply List.eq_replicate_iff.2
      refine ⟨hlenfil, ?_⟩
      intro b hb
      rcases List.mem_map.1 hb with ⟨i, -, rfl⟩
      rfl
    rw [hrep]
    have hcons : consistency (List.replicate (c.length - 1) v) = 1 :=
      consistency_replicate _ (by omega) v (by rw [hv2500]; norm_num)
    exact decide_eq_true (by rw [hcons]; norm_num)

/-- Counterexample to C2 as stated.  Last valid positions
`[(0,0),(100,0),(200,0)]`, candidates `[(50,0),(100,0),(200,0)]`: keypoint 0
jumps 50px while all others stay fixed; the claim requires it to keep
`(0,0)`, but no other keypoint moved more than 5px, so
`check_coordinated_movement` finds fewer than 2 corroborating vectors and
default-accepts — the output keeps the jumped candidate `(50,0)`. -/
theorem stabilize_isolated_jump_counterexample :
    (stabilize_keypoints ⟨[(0, 0), (100, 0), (200, 0)], 0, false⟩
        [(50, 0), (100, 0), (200, 0)]).2.getD 0 sentinel = ((50:ℚ), (0:ℚ)) ∧
    ((50:ℚ), (0:ℚ)) ≠ ((0:ℚ), (0:ℚ)) := by
  have h : (stabilize_keypoints ⟨[(0, 0), (100, 0), (200, 0)], 0, false⟩
      [(50, 0), (100, 0), (200, 0)]).2 = [(50, 0), (100, 0), (200, 0)] := by
    apply stabilize_keypoints_points
    · simp
    · rfl
    · intro i hi
      by_cases hij : i = 0
      · subst hij
        apply stabilize_point_isolated
        · norm_num
        · norm_num
        · intro i hi0
          match i, hi0 with
          | 0, h0 => exact absurd rfl h0
          | 1, _ => rfl
          | 2, _ => rfl
          | n + 3, _ => rfl
      · apply stabilize_point_same
        match i, hij with
        | 0, h0 => exact absurd rfl h0
        | 1, _ => rfl
        | 2, _ => rfl
        | n + 3, _ => rfl
  rw [h]
  constructor
  · rfl
  · intro hcontra
    rw [Prod.mk.injEq] at hcontra
    norm_num at hcontra

/-- C2 (amended).  From an initialized last-valid set of the same
cardinality: (1) a candidate set in which exactly one valid keypoint lies
50px from its last valid position while every other keypoint equals its last
valid position is **accepted** — the jumped candidate is kept, because fewer
than 2 corroborating movements make `check_coordinated_movement`
default-accept (rather than rejected, as originally claimed); (2) a
candidate set in which every keypoint moved by one common 50px vector is
accepted with every new position kept. -/
theorem stabilize_jump_acceptance :
    (∀ (st : TrackState) (c : List Point) (j : ℕ),
      st.last_valid_keypoints ≠ [] →
      st.last_valid_keypoints.length = c.length →
      (c.getD j sentinel).1 ≠ -1 →
      (c.getD j sentinel).2 ≠ -1 →
      distSq (c.getD j sentinel) (st.last_valid_keypoints.getD j sentinel) = 2500 →
      (∀ i, i ≠ j → c.getD i sentinel = st.last_valid_keypoints.getD i sentinel) →
      (stabilize_keypoints st c).2 = c) ∧
    (∀ (st : TrackState) (c : List Point) (v : Point),
      st.last_valid_keypoints ≠ [] →
      st.last_valid_keypoints.length = c.length →
      v.1 ^ 2 + v.2 ^ 2 = 2500 →
      (∀ i, i < c.length → c.getD i sentinel =
        ((st.last_valid_keypoints.getD i sentinel).1 + v.1,
          (st.last_valid_keypoints.getD i sentinel).2 + v.2)) →
      (∀ i, i < c.length → (st.last_valid_keypoints.getD i sentinel).1 ≠ -1 ∧
        (c.getD i sentinel).1 ≠ -1 ∧ (c.getD i sentinel).2 ≠ -1) →
      (stabilize_keypoints st c).2 = c) := by
  constructor
  · intro st c j hne hlen hv1 hv2 _hdist hothers
    apply stabilize_keypoints_points st c hne hlen
    intro i hi
    by_cases hij : i = j
    · subst hij
      exact stabilize_point_isolated _ _ i hv1 hv2 hothers
    · exact stabilize_point_same _ _ i (hothers i hij)
  · intro st c v hne hlen hv2500 hmove hvalid
    apply stabilize_keypoints_points st c hne hlen
    intro i hi
    exact stabilize_point_coordinated _ _ v i hlen hi hv2500 hmove hvalid

/-- Witness for C2 (amended): a concrete isolated 50px jump (vector
`(30,40)`) is accepted, and a concrete coordinated `(30,40)` jump of all
three points is accepted. -/
theorem stabilize_jump_acceptance_witness :
    (stabilize_keypoints ⟨[(0, 0), (10, 0), (20, 0)], 0, false⟩
        [(30, 40), (10, 0), (20, 0)]).2 = [((30:ℚ), (40:ℚ)), (10, 0), (20, 0)] ∧
    (stabilize_keypoints ⟨[(0, 0), (10, 0), (20, 0)], 0, false⟩
        [(30, 40), (40, 40), (50, 40)]).2 = [((30:ℚ), (40:ℚ)), (40, 40), (50, 40)] := by
  constructor
  · apply stabilize_jump_acceptance.1 ⟨[(0, 0), (10, 0), (20, 0)], 0, false⟩
      [(30, 40), (10, 0), (20, 0)] 0
    · simp
    · rfl
    · norm_num [List.getD]
    · norm_num [List.getD]
    · norm_num [List.getD, distSq, sentinel]
    · intro i hi0
      match i, hi0 with
      | 0, h0 => exact absurd rfl h0
      | 1, _ => rfl
      | 2, _ => rfl
      | n + 3, _ => rfl
  · apply stabilize_jump_acceptance.2 ⟨[(0, 0), (10, 0), (20, 0)], 0, false⟩
      [(30, 40), (40, 40), (50, 40)] (30, 40)
    · simp
    · rfl
    · norm_num
    · intro i hi
      match i, hi with
      | 0, _ => norm_num [List.getD]
      | 1, _ => norm_num [List.getD]
      | 2, _ => norm_num [List.getD]
    · intro i hi
      match i, hi with
      | 0, _ => norm_num [List.getD]
      | 1, _ => norm_num [List.getD]
      | 2, _ => norm_num [List.getD]

theorem stabilize_keypoints_identical (st : TrackState) (c : List Point)
    (hne : c ≠ []) (hlast : st.last_valid_keypoints = c)
    (hvalid : ∀ i, i < c.length →
      (c.getD i sentinel).1 ≠ -1 ∧ (c.getD i sentinel).2 ≠ -1) :
    stabilize_keypoints st c =
      ({ last_valid_keypoints := c,
         stabilization_frames := st.stabilization_frames + 1,
         keypoint_stabilized :=
           if 2 ≤ st.stabilization_frames + 1 then true else st.keypoint_stabilized }, c) := by
  have hall : ∀ i, i < c.length → stabilize_point st.last_valid_keypoints c i =
      (true, c.getD i sentinel) := by
    intro i hi
    apply stabilize_point_same_valid
    · rw [hlast]
    · exact (hvalid i hi).1
    · exact (hvalid i hi).2
  have hsnd : (stabilize_results st.last_valid_keypoints c).map Prod.snd = c :=
    stabilize_results_snd _ _ (fun i hi => by rw [hall i hi])
  have hfil : ((stabilize_results st.last_valid_keypoints c).filter Prod.fst).length
      = c.length := by
    have heq : (stabilize_results st.last_valid_keypoints c).filter Prod.fst =
        stabilize_results st.last_valid_keypoints c := by
      rw [List.filter_eq_self]
      intro a ha
      rw [stabilize_results] at ha
      rcases List.mem_map.1 ha with ⟨i, hi, rfl⟩
      rw [hall i (List.mem_range.1 hi)]
    rw [heq, stabilize_results, List.length_map, List.length_range]
  rw [stabilize_keypoints, if_neg (by simp [hlast, hne]), if_pos hfil, hsnd]

/-- C8.  With last-valid memory equal to the (all-valid) incoming candidate
set, each of two consecutive `stabilize_keypoints` calls increments
`stabilization_frames`, and after the second call `keypoint_stabilized` is
true. -/
theorem stabilize_two_identical_frames (st : TrackState) (c : List Point)
    (hne : c ≠ []) (hlast : st.last_valid_keypoints = c)
    (hvalid : ∀ i, i < c.length →
      (c.getD i sentinel).1 ≠ -1 ∧ (c.getD i sentinel).2 ≠ -1) :
    ((stabilize_keypoints st c).1).stabilization_frames = st.stabilization_frames + 1 ∧
    ((stabilize_keypoints (stabilize_keypoints st c).1 c).1).stabilization_frames =
      st.stabilization_frames + 2 ∧
    ((stabilize_keypoints (stabilize_keypoints st c).1 c).1).keypoint_stabilized = true := by
  have h1 := stabilize_keypoints_identical st c hne hlast hvalid
  have h2 := stabilize_keypoints_identical
    ({ last_valid_keypoints := c, stabilization_frames := st.stabilization_frames + 1,
       keypoint_stabilized := if 2 ≤ st.stabilization_frames + 1 then true
         else st.keypoint_stabilized }) c hne rfl hvalid
  refine ⟨by rw [h1], ?_, ?_⟩
  · rw [h1, h2]
  · rw [h1, h2]
    show (if 2 ≤ st.stabilization_frames + 1 + 1 then true
      else if 2 ≤ st.stabilization_frames + 1 then true else st.keypoint_stabilized) = true
    rw [if_pos (by omega)]

/-- Witness for C8 on the one-point candidate list `[(1,2)]` with a fresh
tracking state. -/
theorem stabilize_two_identical_frames_witness :
    ((stabilize_keypoints ⟨[((1:ℚ), (2:ℚ))], 0, false⟩ [((1:ℚ), (2:ℚ))]).1).stabilization_frames
      = 0 + 1 ∧
    ((stabilize_keypoints
        (stabilize_keypoints ⟨[((1:ℚ), (2:ℚ))], 0, false⟩ [((1:ℚ), (2:ℚ))]).1
        [((1:ℚ), (2:ℚ))]).1).stabilization_frames = 0 + 2 ∧
    ((stabilize_keypoints
        (stabilize_keypoints ⟨[((1:ℚ), (2:ℚ))], 0, false⟩ [((1:ℚ), (2:ℚ))]).1
        [((1:ℚ), (2:ℚ))]).1).keypoint_stabilized = true := by
  apply stabilize_two_identical_frames ⟨[((1:ℚ), (2:ℚ))], 0, false⟩ [((1:ℚ), (2:ℚ))]
  · simp
  · rfl
  · intro i hi
    match i, hi with
    | 0, _ => norm_num [List.getD]

/-! ## TemplateMatcher oracles

The outcome of a `cv2.matchTemplate` + `cv2.minMaxLoc` call — the best
correlation value and its location inside the searched region — depends on
raw pixel data and is supplied as an oracle; the geometry computed around it
is embedded exactly. -/

/-- Best correlation value and its location (`max_val`, `max_loc`). -/
structure TMOracle where
  val : ℚ
  loc : ℤ × ℤ

/-! ## DirectPlacementRefiner (`_direct_placement_with_refinement`,
lines 1121-1228; entered from `transfer_keypoints_robust` lines 1245-1255
exactly when reference and live dimensions match)

Annotation keypoints hold integer pixel coordinates, so the loop's
`x, y = int(kp[0]), int(kp[1])` is the identity and keypoints are `ℤ × ℤ`. -/

/-- The refined position appended for one keypoint (loop body,
lines 1144-1217): out-of-bounds keypoints, too-small templates, too-small
search regions and correlations `≤ 0.5` keep the raw annotation coordinate;
a correlation `> 0.5` yields the matched position if it moved `< 60`px on
both axes, else the raw coordinate. -/
def direct_place_point (w h refW refH : ℤ) (kp : ℤ × ℤ) (oracle : TMOracle) :
    ℤ × ℤ :=
  if kp.1 ≤ 0 ∨ kp.2 ≤ 0 ∨ w ≤ kp.1 ∨ h ≤ kp.2 then kp
  else
    let ref_y1 := max 0 (kp.2 - 30)
    let ref_y2 := min refH (kp.2 + 30)
    let ref_x1 := max 0 (kp.1 - 30)
    let ref_x2 := min refW (kp.1 + 30)
    if ref_x2 - ref_x1 < 20 ∨ ref_y2 - ref_y1 < 20 then kp
    else
      let search_y1 := max 0 (kp.2 - 80)
      let search_y2 := min h (kp.2 + 80)
      let search_x1 := max 0 (kp.1 - 80)
      let search_x2 := min w (kp.1 + 80)
      if search_x2 - search_x1 < ref_x2 - ref_x1 ∨
          search_y2 - search_y1 < ref_y2 - ref_y1 then kp
      else if 1 / 2 < oracle.val then
        let refined_x := search_x1 + oracle.loc.1 + (ref_x2 - ref_x1).fdiv 2
        let refined_y := search_y1 + oracle.loc.2 + (ref_y2 - ref_y1).fdiv 2
        if |refined_x - kp.1| < 60 ∧ |refined_y - kp.2| < 60 then (refined_x, refined_y)
        else kp
      else kp

/-- The `refined_points` list built by the direct-placement loop (before
`stabilize_keypoints` is applied to it, line 1228). -/
def direct_placement_refined (w h refW refH : ℤ) (kps : List (ℤ × ℤ))
    (oracle : ℕ → TMOracle) : List (ℤ × ℤ) :=
  (List.range kps.length).map
    (fun i => direct_place_point w h refW refH (kps.getD i (0, 0)) (oracle i))

/-- `_direct_placement_with_refinement` (lines 1121-1228): the refined points
passed through the stabilization filter. -/
noncomputable def direct_placement_with_refinement (st : TrackState) (w h refW refH : ℤ)
    (kps : List (ℤ × ℤ)) (oracle : ℕ → TMOracle) : TrackState × List Point :=
  stabilize_keypoints st
    ((direct_placement_refined w h refW refH kps oracle).map
      (fun p => ((p.1 : ℚ), (p.2 : ℚ))))

theorem direct_place_point_low_corr (w h refW refH : ℤ) (kp : ℤ × ℤ)
    (o : TMOracle) (hval : o.val ≤ 1 / 2) :
    direct_place_point w h refW refH kp o = kp := by
  simp only [direct_place_point]
  split_ifs with h1 h2 h3 h4 h5 <;> first | rfl | linarith

theorem direct_place_point_moved (w h refW refH : ℤ) (kp : ℤ × ℤ) (o : TMOracle)
    (hne : direct_place_point w h refW refH kp o ≠ kp) :
    1 / 2 < o.val ∧
    |(direct_place_point w h refW refH kp o).1 - kp.1| < 60 ∧
    |(direct_place_point w h refW refH kp o).2 - kp.2| < 60 := by
  simp only [direct_place_point] at hne ⊢
  split_ifs at hne ⊢ with h1 h2 h3 h4 h5
  · exact absurd rfl hne
  · exact absurd rfl hne
  · exact absurd rfl hne
  · exact ⟨h4, by simpa using h5.1, by simpa using h5.2⟩
  · exact absurd rfl hne
  · exact absurd rfl hne

/-- C5.  In the direct-placement refiner, a keypoint whose best local
correlation is `≤ 0.5` gets exactly its raw annotation coordinate appended
(before stabilization); an appended position that differs from the raw
coordinate implies correlation `> 0.5` and a displacement `< 60`px on both
axes. -/
theorem direct_placement_correlation_spec (w h refW refH : ℤ) (kps : List (ℤ × ℤ))
    (oracle : ℕ → TMOracle) (i : ℕ) (hi : i < kps.length) :
    ((oracle i).val ≤ 1 / 2 →
      (direct_placement_refined w h refW refH kps oracle).getD i (0, 0) =
        kps.getD i (0, 0)) ∧
    ((direct_placement_refined w h refW refH kps oracle).getD i (0, 0) ≠
        kps.getD i (0, 0) →
      1 / 2 < (oracle i).val ∧
      |((direct_placement_refined w h refW refH kps oracle).getD i (0, 0)).1 -
          (kps.getD i (0, 0)).1| < 60 ∧
      |((direct_placement_refined w h refW refH kps oracle).getD i (0, 0)).2 -
          (kps.getD i (0, 0)).2| < 60) := by
  have hg : (direct_placement_refined w h refW refH kps oracle).getD i (0, 0) =
      direct_place_point w h refW refH (kps.getD i (0, 0)) (oracle i) := by
    rw [direct_placement_refined,
      List.getD_eq_getElem _ _ (by simpa using hi), List.getElem_map, List.getElem_range]
  rw [hg]
  exact ⟨direct_place_point_low_corr w h refW refH _ _,
    direct_place_point_moved w h refW refH _ _⟩

/-- Witness for C5: correlation `0.3 ≤ 0.5` keeps the raw coordinate
`(100, 200)`. -/
theorem direct_placement_correlation_spec_witness :
    (direct_placement_refined 1000 1000 1000 1000 [((100:ℤ), (200:ℤ))]
      (fun _ => ⟨3 / 10, (0, 0)⟩)).getD 0 (0, 0) = ((100:ℤ), (200:ℤ)) :=
  (direct_placement_correlation_spec 1000 1000 1000 1000 [(100, 200)]
    (fun _ => ⟨3 / 10, (0, 0)⟩) 0 (by norm_num)).1 (by norm_num)

/-! ## Corner-specialized template matching (`template_match_corners`,
lines 925-1013) -/

/-- `self.corner_keypoints_count = 12`. -/
def corner_keypoints_count : ℕ := 12

/-- The search window `((sx1, sx2), (sy1, sy2))` used for one corner
keypoint (lines 966-976): centered at the scale-adjusted expected position
`(int(x*scale), int(y*scale))` with half-size
`int(template_size * (2.5 * scale))`, clipped to the live frame. -/
def corner_search_window (w h : ℤ) (scale : ℚ) (kp : ℤ × ℤ) :
    (ℤ × ℤ) × (ℤ × ℤ) :=
  let template_size := pyInt (150 * scale)
  let search_half := pyInt ((template_size : ℚ) * (5 / 2 * scale))
  let ex := pyInt ((kp.1 : ℚ) * scale)
  let ey := pyInt ((kp.2 : ℚ) * scale)
  ((max 0 (ex - search_half), min w (ex + search_half)),
    (max 0 (ey - search_half), min h (ey + search_half)))

/-- The position produced for one corner keypoint by
`template_match_corners` (loop body, lines 946-1011); the best correlation
outcome over the two matching methods is the oracle.  Note line 1005 of the
source: the y-coordinate of the match is computed from `sx1` (the x-lower
bound of the search window), where the general matcher (line 915) uses
`sy1`. -/
def template_match_corner (refW refH w h : ℤ) (scale : ℚ) (kp : ℤ × ℤ)
    (oracle : TMOracle) : ℤ × ℤ :=
  let template_size := pyInt (150 * scale)
  let half_size := template_size.fdiv 2
  let x1 := max 0 (kp.1 - half_size)
  let y1 := max 0 (kp.2 - half_size)
  let x2 := min refW (kp.1 + half_size)
  let y2 := min refH (kp.2 + half_size)
  if x2 - x1 < 20 ∨ y2 - y1 < 20 then (-1, -1)
  else
    let sx1 := (corner_search_window w h scale kp).1.1
    let sx2 := (corner_search_window w h scale kp).1.2
    let sy1 := (corner_search_window w h scale kp).2.1
    let sy2 := (corner_search_window w h scale kp).2.2
    if sx2 - sx1 < x2 - x1 ∨ sy2 - sy1 < y2 - y1 then (-1, -1)
    else if 3 / 5 < oracle.val then
      (sx1 + oracle.loc.1 + (x2 - x1).fdiv 2, sx1 + oracle.loc.2 + (y2 - y1).fdiv 2)
    else (-1, -1)

/-- `template_match_corners` (lines 925-1013): the corner positions for the
first `min(12, len(keypoints))` keypoints. -/
def template_match_corners (refW refH w h : ℤ) (scale : ℚ) (kps : List (ℤ × ℤ))
    (oracle : ℕ → TMOracle) : List (ℤ × ℤ) :=
  (List.range (min corner_keypoints_count kps.length)).map
    (fun i => template_match_corner refW refH w h scale (kps.getD i (0, 0)) (oracle i))

/-- C7: evaluation at a failing input.  Reference 2000×2000, live frame
4000×4000, scale 1, corner keypoint `(200, 1800)`, best correlation 0.9 at
offset `(10, 10)` (a location inside the 426×601 correlation surface): the
returned non-sentinel position is `(85, 85)`, whose y-coordinate lies far
outside the searched window `[sx1, sx2] × [sy1, sy2] = [0, 575] × [1425,
2175]` — line 1005 builds the y-coordinate from `sx1` instead of `sy1`. -/
theorem template_match_corners_outside_window :
    template_match_corners 2000 2000 4000 4000 1 [((200:ℤ), (1800:ℤ))]
        (fun _ => ⟨9 / 10, (10, 10)⟩) = [((85:ℤ), (85:ℤ))] ∧
    (corner_search_window 4000 4000 1 ((200:ℤ), (1800:ℤ))).2.1 = 1425 ∧
    (corner_search_window 4000 4000 1 ((200:ℤ), (1800:ℤ))).2.2 = 2175 ∧
    ¬((corner_search_window 4000 4000 1 ((200:ℤ), (1800:ℤ))).2.1 ≤ (85:ℤ) ∧
      (85:ℤ) ≤ (corner_search_window 4000 4000 1 ((200:ℤ), (1800:ℤ))).2.2) := by
  have hts : pyInt 150 = 150 := by norm_num [pyInt]
  have hwin : corner_search_window 4000 4000 1 ((200:ℤ), (1800:ℤ)) =
      ((0, 575), (1425, 2175)) := by
    simp only [corner_search_window]
    norm_num [pyInt]
  have hfd : ((150:ℤ)).fdiv 2 = 75 := rfl
  have hpt : template_match_corner 2000 2000 4000 4000 1 ((200:ℤ), (1800:ℤ))
      ⟨9 / 10, (10, 10)⟩ = (85, 85) := by
    norm_num [template_match_corner, hts, hwin, hfd]
  refine ⟨?_, by rw [hwin], by rw [hwin], by rw [hwin]; norm_num⟩
  have hr1 : List.range 1 = [0] := rfl
  simp [template_match_corners, corner_keypoints_count, hr1, hpt]

end Operator
